import Mathlib

set_option maxRecDepth 8000

/-!
Verification of `src/services/backend/app/utils.py`.

The module's only module-level binding besides the three functions is
the imported name `hashlib`; its body is:

    def make_id(k=8) -> str:
        return ''.join(random.choices(string.ascii_lowercase + string.digits, k=k))

    def hash_weak_password(s) -> str:
        return hashlib.sha256(("salty$" + s).encode()).hexdigest()

    def remove_unwanted_characters(s: str) -> str:
        return s.replace("<", "")

We embed the three functions shallowly.  Machine words are `Nat` with
explicit reduction modulo `2 ^ 32`; SHA-256 is implemented in full
(FIPS 180-4), with the round constants and the initial hash derived,
as in the standard, from the fractional parts of cube and square roots
of the first primes.  Python name resolution for `make_id` is modelled
by the set of names actually bound at module level.
-/

namespace Utils

/-! ## SHA-256 core (the semantics of `hashlib.sha256(...).hexdigest()`) -/

/-- Addition of 32-bit words: `Nat` addition reduced modulo `2 ^ 32`. -/
def add32 (a b : Nat) : Nat := (a + b) % 4294967296

/-- Right rotation of a 32-bit word by `n` bits. -/
def rotr (n x : Nat) : Nat :=
  (x >>> n) ||| ((x <<< (32 - n)) &&& 0xFFFFFFFF)

/-- Bitwise complement within 32 bits. -/
def not32 (x : Nat) : Nat := x ^^^ 0xFFFFFFFF

/-- FIPS 180-4 `Ch(e, f, g)`. -/
def ch (e f g : Nat) : Nat := (e &&& f) ^^^ (not32 e &&& g)

/-- FIPS 180-4 `Maj(a, b, c)`. -/
def maj (a b c : Nat) : Nat := (a &&& b) ^^^ (a &&& c) ^^^ (b &&& c)

/-- FIPS 180-4 `Σ₀`. -/
def bsig0 (x : Nat) : Nat := rotr 2 x ^^^ rotr 13 x ^^^ rotr 22 x

/-- FIPS 180-4 `Σ₁`. -/
def bsig1 (x : Nat) : Nat := rotr 6 x ^^^ rotr 11 x ^^^ rotr 25 x

/-- FIPS 180-4 `σ₀`. -/
def ssig0 (x : Nat) : Nat := rotr 7 x ^^^ rotr 18 x ^^^ (x >>> 3)

/-- FIPS 180-4 `σ₁`. -/
def ssig1 (x : Nat) : Nat := rotr 17 x ^^^ rotr 19 x ^^^ (x >>> 10)

/-- The first 64 primes, whose cube roots generate the SHA-256 round
constants. -/
def primes64 : List Nat :=
  [2, 3, 5, 7, 11, 13, 17, 19, 23, 29, 31, 37, 41, 43, 47, 53,
   59, 61, 67, 71, 73, 79, 83, 89, 97, 101, 103, 107, 109, 113, 127, 131,
   137, 139, 149, 151, 157, 163, 167, 173, 179, 181, 191, 193, 197, 199, 211, 223,
   227, 229, 233, 239, 241, 251, 257, 263, 269, 271, 277, 281, 283, 293, 307, 311]

/-- Integer cube root by bisection with explicit fuel; on the interval
`[lo, hi)` it maintains `lo ^ 3 ≤ n < hi ^ 3`. -/
def icbrtGo (n : Nat) : Nat → Nat → Nat → Nat
  | 0, lo, _ => lo
  | fuel + 1, lo, hi =>
    if hi ≤ lo + 1 then lo
    else
      let m := (lo + hi) / 2
      if m ^ 3 ≤ n then icbrtGo n fuel m hi else icbrtGo n fuel lo m

/-- Integer cube root: the greatest `r` with `r ^ 3 ≤ n`. -/
def icbrt (n : Nat) : Nat := icbrtGo n 130 0 (n + 1)

/-- Integer square root by bisection with explicit fuel; on the
interval `[lo, hi)` it maintains `lo ^ 2 ≤ n < hi ^ 2`. -/
def isqrtGo (n : Nat) : Nat → Nat → Nat → Nat
  | 0, lo, _ => lo
  | fuel + 1, lo, hi =>
    if hi ≤ lo + 1 then lo
    else
      let m := (lo + hi) / 2
      if m ^ 2 ≤ n then isqrtGo n fuel m hi else isqrtGo n fuel lo m

/-- Integer square root: the greatest `r` with `r ^ 2 ≤ n`. -/
def isqrt (n : Nat) : Nat := isqrtGo n 130 0 (n + 1)

/-- SHA-256 round constants: the first 32 bits of the fractional parts
of the cube roots of the first 64 primes. -/
def K256 : List Nat := primes64.map (fun p => icbrt (p * 2 ^ 96) % 4294967296)

/-- The eight 32-bit working variables of the compression function. -/
structure Hash8 where
  a : Nat
  b : Nat
  c : Nat
  d : Nat
  e : Nat
  f : Nat
  g : Nat
  h : Nat

/-- Initial hash value: the first 32 bits of the fractional parts of
the square roots of the first 8 primes. -/
def initHash : Hash8 :=
  ⟨isqrt (2 * 2 ^ 64) % 4294967296, isqrt (3 * 2 ^ 64) % 4294967296,
   isqrt (5 * 2 ^ 64) % 4294967296, isqrt (7 * 2 ^ 64) % 4294967296,
   isqrt (11 * 2 ^ 64) % 4294967296, isqrt (13 * 2 ^ 64) % 4294967296,
   isqrt (17 * 2 ^ 64) % 4294967296, isqrt (19 * 2 ^ 64) % 4294967296⟩

/-- Parse a 64-byte block into 16 big-endian 32-bit words. -/
def blockWords : List Nat → List Nat
  | b0 :: b1 :: b2 :: b3 :: rest =>
    ((b0 <<< 24) + (b1 <<< 16) + (b2 <<< 8) + b3) :: blockWords rest
  | _ => []

/-- Extend the 16 message words to the full 64-word schedule; each step
appends `σ₁(w[i-2]) + w[i-7] + σ₀(w[i-15]) + w[i-16]` (mod `2 ^ 32`). -/
def extendSchedule : Nat → List Nat → List Nat
  | 0, ws => ws
  | n + 1, ws =>
    let i := ws.length
    let w := add32 (add32 (ssig1 (ws.getD (i - 2) 0)) (ws.getD (i - 7) 0))
                   (add32 (ssig0 (ws.getD (i - 15) 0)) (ws.getD (i - 16) 0))
    extendSchedule n (ws ++ [w])

/-- One round of the SHA-256 compression function, consuming one
(constant, schedule-word) pair. -/
def roundStep (s : Hash8) (kw : Nat × Nat) : Hash8 :=
  let t1 := (s.h + bsig1 s.e + ch s.e s.f s.g + kw.1 + kw.2) % 4294967296
  let t2 := (bsig0 s.a + maj s.a s.b s.c) % 4294967296
  ⟨(t1 + t2) % 4294967296, s.a, s.b, s.c, (s.d + t1) % 4294967296, s.e, s.f, s.g⟩

/-- Compress one 64-byte block into the running hash. -/
def compressBlock (H : Hash8) (block : List Nat) : Hash8 :=
  let W := extendSchedule 48 (blockWords block)
  let s := (K256.zip W).foldl roundStep H
  ⟨add32 H.a s.a, add32 H.b s.b, add32 H.c s.c, add32 H.d s.d,
   add32 H.e s.e, add32 H.f s.f, add32 H.g s.g, add32 H.h s.h⟩

/-- The 8-byte big-endian encoding of the message bit length. -/
def lenBytes (L : Nat) : List Nat :=
  [((8 * L) >>> 56) % 256, ((8 * L) >>> 48) % 256, ((8 * L) >>> 40) % 256,
   ((8 * L) >>> 32) % 256, ((8 * L) >>> 24) % 256, ((8 * L) >>> 16) % 256,
   ((8 * L) >>> 8) % 256, (8 * L) % 256]

/-- SHA-256 padding: append `0x80`, zero bytes up to 56 mod 64, then
the 64-bit big-endian bit length. -/
def pad (msg : List Nat) : List Nat :=
  let L := msg.length
  msg ++ [0x80] ++ List.replicate ((64 + 56 - (L + 1) % 64) % 64) 0 ++ lenBytes L

/-- Split a byte list into 64-byte chunks (fuel-driven; the fuel is the
list length, which bounds the number of chunks). -/
def chunks64 : Nat → List Nat → List (List Nat)
  | 0, _ => []
  | _ + 1, [] => []
  | fuel + 1, l => l.take 64 :: chunks64 fuel (l.drop 64)

/-- Serialize a 32-bit word as 4 big-endian bytes. -/
def wordBytes (w : Nat) : List Nat :=
  [(w >>> 24) % 256, (w >>> 16) % 256, (w >>> 8) % 256, w % 256]

/-- The 32-byte digest corresponding to a final hash state. -/
def digestBytes (H : Hash8) : List Nat :=
  wordBytes H.a ++ wordBytes H.b ++ wordBytes H.c ++ wordBytes H.d ++
  wordBytes H.e ++ wordBytes H.f ++ wordBytes H.g ++ wordBytes H.h

/-- SHA-256 of a byte string, as the list of 32 digest bytes. -/
def sha256 (msg : List Nat) : List Nat :=
  digestBytes ((chunks64 (pad msg).length (pad msg)).foldl compressBlock initHash)

/-- The sixteen lowercase hexadecimal digit characters. -/
def hexChars : List Char := "0123456789abcdef".data

/-- The lowercase hexadecimal digit for a nibble. -/
def hexDigit (n : Nat) : Char := hexChars.getD (n % 16) '0'

/-- The two lowercase hexadecimal digits of one byte. -/
def byteHex (b : Nat) : List Char := [hexDigit (b / 16), hexDigit b]

/-- Render a byte string as a lowercase hexadecimal string, as Python's
`.hexdigest()` does. -/
def hexdigest (bs : List Nat) : String := String.mk (bs.flatMap byteHex)

/-! ## UTF-8 encoding (the semantics of Python's `str.encode()`) -/

/-- The UTF-8 encoding of one Unicode scalar value. -/
def utf8EncodeChar (c : Char) : List Nat :=
  let n := c.toNat
  if n < 0x80 then [n]
  else if n < 0x800 then
    [0xC0 ||| (n >>> 6), 0x80 ||| (n &&& 0x3F)]
  else if n < 0x10000 then
    [0xE0 ||| (n >>> 12), 0x80 ||| ((n >>> 6) &&& 0x3F), 0x80 ||| (n &&& 0x3F)]
  else
    [0xF0 ||| (n >>> 18), 0x80 ||| ((n >>> 12) &&& 0x3F),
     0x80 ||| ((n >>> 6) &&& 0x3F), 0x80 ||| (n &&& 0x3F)]

/-- The UTF-8 encoding of a string, as a list of bytes. -/
def utf8Encode (s : String) : List Nat := s.data.flatMap utf8EncodeChar

/-! ## The three functions of `utils.py` -/

/-- The names bound at module level in `utils.py`: the single import
`hashlib` and the three function definitions.  `random` and `string`
are not among them. -/
def moduleGlobals : List String :=
  ["hashlib", "make_id", "hash_weak_password", "remove_unwanted_characters"]

/-- A Python runtime error; `nameError n` models `NameError: name n is
not defined`. -/
inductive PyError where
  | nameError : String → PyError
deriving DecidableEq, Repr

/-- Python's `string.ascii_lowercase`. -/
def ascii_lowercase : List Char := "abcdefghijklmnopqrstuvwxyz".data

/-- Python's `string.digits`. -/
def digits : List Char := "0123456789".data

/-- Python's `random.choices(population, k=k)`: `k` independent draws
with replacement, the pseudo-random source modelled as an explicit
stream `g` of draws (index of the draw to index into the population).
For `k < 0` the comprehension runs zero times and the result is empty. -/
def random_choices (g : Nat → Nat) (population : List Char) (k : Int) : List Char :=
  (List.range k.toNat).map (fun i => population.getD (g i % population.length) ' ')

/-- `make_id` from `utils.py`.  Evaluating the body first resolves the
global names `random` and `string`; in the module as written neither is
bound, so the call raises `NameError` (the name `random` is looked up
first).  The success branch — unreachable in the source — is the joined
result of `random.choices(string.ascii_lowercase + string.digits, k=k)`. -/
def make_id (g : Nat → Nat) (k : Int) : Except PyError String :=
  if "random" ∈ moduleGlobals then
    if "string" ∈ moduleGlobals then
      .ok (String.mk (random_choices g (ascii_lowercase ++ digits) k))
    else .error (.nameError "string")
  else .error (.nameError "random")

/-- `hash_weak_password` from `utils.py`:
`hashlib.sha256(("salty$" + s).encode()).hexdigest()`. -/
def hash_weak_password (s : String) : String :=
  hexdigest (sha256 (utf8Encode ("salty$" ++ s)))

/-- The semantics of Python's `str.replace` for a non-empty pattern
`p :: ps`: scan left to right, replacing each (non-overlapping)
occurrence of the pattern with `repl`.  The fuel only bounds the
recursion; every step consumes at least one character, so any fuel of
at least the list length gives the replacement semantics. -/
def pyReplaceGo (p : Char) (ps repl : List Char) : Nat → List Char → List Char
  | 0, l => l
  | _ + 1, [] => []
  | fuel + 1, c :: rest =>
    if (p :: ps).isPrefixOf (c :: rest) then
      repl ++ pyReplaceGo p ps repl fuel (rest.drop ps.length)
    else
      c :: pyReplaceGo p ps repl fuel rest

/-- Python's `l.replace(pat, repl)` for a non-empty pattern `p :: ps`. -/
def pyReplace (p : Char) (ps repl l : List Char) : List Char :=
  pyReplaceGo p ps repl l.length l

/-- `remove_unwanted_characters` from `utils.py`: `s.replace("<", "")`. -/
def remove_unwanted_characters (s : String) : String :=
  String.mk (pyReplace '<' [] [] s.data)

/-! ## The specification's own wording, for refinement comparisons -/

/-- The password digest exactly as the specification words it: the
SHA-256 digest, rendered in lowercase hexadecimal, of the byte sequence
consisting of the UTF-8 bytes of `salty$` followed by the UTF-8 bytes
of the secret `s`. -/
def specHashPassword (s : String) : String :=
  hexdigest (sha256 (utf8Encode "salty$" ++ utf8Encode s))

/-- The sanitizer exactly as the specification words it: delete every
occurrence of the character `<`, keeping all other characters in their
original relative order. -/
def specSanitize (s : String) : String :=
  String.mk (s.data.filter (fun c => c ≠ '<'))

end Utils

namespace Utils

/-! ## Supporting lemmas -/

theorem data_append (a b : String) : (a ++ b).data = a.data ++ b.data := rfl

theorem utf8Encode_append (a b : String) :
    utf8Encode (a ++ b) = utf8Encode a ++ utf8Encode b := by
  simp [utf8Encode, data_append]

theorem hexDigit_mem (n : Nat) : hexDigit n ∈ hexChars := by
  unfold hexDigit
  have hlen : hexChars.length = 16 := rfl
  rw [List.getD_eq_getElem _ _ (by rw [hlen]; omega)]
  exact List.getElem_mem _

theorem mk_length (l : List Char) : (String.mk l).length = l.length := rfl

theorem flatMap_byteHex_length (bs : List Nat) :
    (bs.flatMap byteHex).length = 2 * bs.length := by
  induction bs with
  | nil => rfl
  | cons b rest ih =>
    simp only [List.flatMap_cons, List.length_append, ih, byteHex,
      List.length_cons, List.length_nil, List.length_singleton]
    omega

theorem hexdigest_length (bs : List Nat) : (hexdigest bs).length = 2 * bs.length := by
  rw [hexdigest, mk_length, flatMap_byteHex_length]

theorem hexdigest_mem (bs : List Nat) (c : Char) (hc : c ∈ (hexdigest bs).data) :
    c ∈ hexChars := by
  simp only [hexdigest] at hc
  rcases List.mem_flatMap.mp hc with ⟨b, _, hb⟩
  simp only [byteHex, List.mem_cons, List.mem_singleton] at hb
  rcases hb with rfl | rfl | h
  · exact hexDigit_mem _
  · exact hexDigit_mem _
  · cases h

theorem sha256_length (msg : List Nat) : (sha256 msg).length = 32 := rfl

/-! ## Validation of the SHA-256 core against the FIPS 180-4 examples -/

theorem sha256_fips_abc :
    hexdigest (sha256 (utf8Encode "abc")) =
      "ba7816bf8f01cfea414140de5dae2223b00361a396177a9cb410ff61f20015ad" := by rfl

theorem sha256_fips_empty :
    hexdigest (sha256 (utf8Encode "")) =
      "e3b0c44298fc1c149afbf4c8996fb92427ae41e4649b934ca495991b7852b855" := by rfl

theorem sha256_fips_two_blocks :
    hexdigest (sha256 (utf8Encode "abcdbcdecdefdefgefghfghighijhijkijkljklmklmnlmnomnopnopq")) =
      "248d6a61d20638b8e5c026930c3e6039a33ce45964ff2167f6ecedd419db06c1" := by rfl

/-! ## The claims -/

/-- C1: for every string `s`, `hash_weak_password s` is the SHA-256
digest, in lowercase hexadecimal, of the UTF-8 bytes of `salty$`
followed by the UTF-8 bytes of `s`; in particular the digests of
`"password"` and `""` are the fixed digests of the byte sequences
`salty$password` and `salty$`. -/
theorem hash_weak_password_correct :
    (∀ s : String, hash_weak_password s = specHashPassword s) ∧
    hash_weak_password "password" = hexdigest (sha256 (utf8Encode "salty$password")) ∧
    hash_weak_password "password" =
      "4c7607a637d8c0e9f144ed9c159f71416cd9fc83457a70a475556f9a1b6ee3e0" ∧
    hash_weak_password "" = hexdigest (sha256 (utf8Encode "salty$")) ∧
    hash_weak_password "" =
      "197eebc41e268d53e071432f068c3365be4fd445bb08311cb6fc2495ac58bf92" :=
  ⟨fun s => by rw [hash_weak_password, specHashPassword, utf8Encode_append],
   rfl, by rfl, rfl, by rfl⟩

/-- C2: every digest produced by `hash_weak_password` is exactly 64
characters long and each character is a lowercase hexadecimal digit. -/
theorem hash_weak_password_hex64 (s : String) :
    (hash_weak_password s).length = 64 ∧
    ∀ c ∈ (hash_weak_password s).data, c ∈ hexChars := by
  constructor
  · show (hexdigest (sha256 (utf8Encode ("salty$" ++ s)))).length = 64
    rw [hexdigest_length, sha256_length]
  · intro c hc
    exact hexdigest_mem _ c hc

/-- Witness for C2 at the concrete input `"pw"`. -/
theorem hash_weak_password_hex64_witness :
    (hash_weak_password "pw").length = 64 ∧
    ∀ c ∈ (hash_weak_password "pw").data, c ∈ hexChars :=
  hash_weak_password_hex64 "pw"

/-- C3: `hash_weak_password` is deterministic — it is a pure function
of its input, so any two calls on equal inputs return equal outputs. -/
theorem hash_weak_password_deterministic (s₁ s₂ : String) (h : s₁ = s₂) :
    hash_weak_password s₁ = hash_weak_password s₂ :=
  congrArg hash_weak_password h

/-- Witness for C3 at the concrete input `"password"`. -/
theorem hash_weak_password_deterministic_witness :
    hash_weak_password "password" = hash_weak_password "password" :=
  hash_weak_password_deterministic "password" "password" rfl

/-- C9: every call of `make_id`, whatever the draw stream and the
argument `k`, raises `NameError: name 'random' is not defined`, because
the module never imports `random` (nor `string`); no identifier string
is ever returned. -/
theorem make_id_always_name_error (g : Nat → Nat) (k : Int) :
    make_id g k = Except.error (PyError.nameError "random") := rfl

/-- Witness for C9 at a concrete draw stream and length. -/
theorem make_id_always_name_error_witness :
    make_id (fun _ => 0) 5 = Except.error (PyError.nameError "random") :=
  make_id_always_name_error (fun _ => 0) 5

/-- C7 (failing evaluation): the call `make_id` with the default
argument `k = 8` does not return an 8-character `[a-z0-9]` string; it
raises a `NameError`, whatever the pseudo-random draw stream. -/
theorem make_id_default_raises (g : Nat → Nat) :
    make_id g 8 = Except.error (PyError.nameError "random") := rfl

/-- Witness for C7 at a concrete draw stream. -/
theorem make_id_default_raises_witness :
    make_id (fun _ => 0) 8 = Except.error (PyError.nameError "random") :=
  make_id_default_raises (fun _ => 0)

/-- C8 (failing evaluation): `make_id` performs no argument
validation — for a negative length it raises `NameError`, not an
invalid-argument error, and for the non-negative length 8 it also
fails instead of returning a string. -/
theorem make_id_no_validation :
    make_id (fun _ => 0) (-1) = Except.error (PyError.nameError "random") ∧
    make_id (fun _ => 0) 8 = Except.error (PyError.nameError "random") :=
  ⟨rfl, rfl⟩

/-! ## The sanitizer -/

theorem pyReplaceGo_lt_eq_filter (l : List Char) (fuel : Nat) (hf : l.length ≤ fuel) :
    pyReplaceGo '<' [] [] fuel l = l.filter (fun c => c ≠ '<') := by
  induction l generalizing fuel with
  | nil => cases fuel <;> rfl
  | cons c rest ih =>
    cases fuel with
    | zero => simp at hf
    | succ f =>
      have hf' : rest.length ≤ f := by simp at hf; omega
      by_cases hc : c = '<'
      · subst hc
        simp [pyReplaceGo, List.isPrefixOf, ih _ hf']
      · simp [pyReplaceGo, List.isPrefixOf, Ne.symm hc, hc, ih _ hf']

theorem sanitize_eq_filter (s : String) :
    remove_unwanted_characters s = String.mk (s.data.filter (fun c => c ≠ '<')) := by
  rw [remove_unwanted_characters, pyReplace, pyReplaceGo_lt_eq_filter _ _ le_rfl]

theorem mk_data (s : String) : String.mk s.data = s := rfl

theorem filter_lt_length_count (l : List Char) :
    (l.filter (fun c => c ≠ '<')).length + l.count '<' = l.length := by
  induction l with
  | nil => rfl
  | cons c rest ih =>
    by_cases hc : c = '<'
    · subst hc
      simp only [ne_eq, decide_not] at ih ⊢
      simp [List.count_cons]
      omega
    · simp only [ne_eq, decide_not] at ih ⊢
      simp [List.count_cons, hc, Ne.symm hc]
      omega

/-- C4: `remove_unwanted_characters` deletes every occurrence of `<`
and keeps all other characters in their original relative order — it
agrees with the specification's filter everywhere, its output never
contains `<`, and it maps the empty string to the empty string. -/
theorem remove_unwanted_characters_correct (s : String) :
    remove_unwanted_characters s = specSanitize s ∧
    '<' ∉ (remove_unwanted_characters s).data ∧
    remove_unwanted_characters "" = "" := by
  refine ⟨sanitize_eq_filter s, ?_, rfl⟩
  rw [sanitize_eq_filter]
  intro hmem
  have := List.mem_filter.mp hmem
  simp at this

/-- Witness for C4 at the concrete input `"a<b<<c>"`. -/
theorem remove_unwanted_characters_correct_witness :
    remove_unwanted_characters "a<b<<c>" = specSanitize "a<b<<c>" ∧
    '<' ∉ (remove_unwanted_characters "a<b<<c>").data ∧
    remove_unwanted_characters "" = "" :=
  remove_unwanted_characters_correct "a<b<<c>"

theorem filter_lt_idem (l : List Char) :
    (l.filter (fun c => c ≠ '<')).filter (fun c => c ≠ '<') =
      l.filter (fun c => c ≠ '<') := by
  rw [List.filter_filter]
  apply List.filter_congr
  intro a _
  exact Bool.and_self _

/-- C5: the sanitizer is idempotent — sanitizing twice gives the same
result as sanitizing once. -/
theorem remove_unwanted_characters_idempotent (s : String) :
    remove_unwanted_characters (remove_unwanted_characters s) =
      remove_unwanted_characters s := by
  rw [sanitize_eq_filter s, sanitize_eq_filter]
  congr 1
  exact filter_lt_idem s.data

/-- Witness for C5 at the concrete input `"x<<y"`. -/
theorem remove_unwanted_characters_idempotent_witness :
    remove_unwanted_characters (remove_unwanted_characters "x<<y") =
      remove_unwanted_characters "x<<y" :=
  remove_unwanted_characters_idempotent "x<<y"

/-- C6: the length of the sanitized string is the length of the input
minus the number of occurrences of `<` in it. -/
theorem remove_unwanted_characters_length (s : String) :
    (remove_unwanted_characters s).length = s.length - s.data.count '<' := by
  rw [sanitize_eq_filter, mk_length]
  have := filter_lt_length_count s.data
  have hls : s.length = s.data.length := rfl
  omega

/-- Witness for C6 at the concrete input `"a<b<<c>"`. -/
theorem remove_unwanted_characters_length_witness :
    (remove_unwanted_characters "a<b<<c>").length =
      "a<b<<c>".length - "a<b<<c>".data.count '<' :=
  remove_unwanted_characters_length "a<b<<c>"

/-- C10: the sanitizer is the identity exactly on `<`-free strings —
it returns its input unchanged if and only if the input contains no
`<` character. -/
theorem remove_unwanted_characters_identity_iff (s : String) :
    remove_unwanted_characters s = s ↔ '<' ∉ s.data := by
  rw [sanitize_eq_filter]
  constructor
  · intro h hmem
    have hdata : s.data.filter (fun c => c ≠ '<') = s.data := by
      have := congrArg String.data h
      simpa using this
    rw [← hdata] at hmem
    have := List.mem_filter.mp hmem
    simp at this
  · intro h
    have hdata : s.data.filter (fun c => c ≠ '<') = s.data := by
      apply List.filter_eq_self.mpr
      intro a ha
      have hne : a ≠ '<' := fun heq => h (heq ▸ ha)
      simp [hne]
    rw [hdata, mk_data]

/-- Witness for C10 at the concrete input `"abc"`. -/
theorem remove_unwanted_characters_identity_iff_witness :
    remove_unwanted_characters "abc" = "abc" ↔ '<' ∉ "abc".data :=
  remove_unwanted_characters_identity_iff "abc"

end Utils
